import Mathlib

/-!
Verification of the package registry (`lib/spack/spack/packages.py`), the stage
directory lifecycle (`lib/spack/spack/stage.py`) and the comparison-key
utilities (`lib/spack/llnl/util/lang.py`) of the spack repository.

The Python code is shallowly embedded: pure helpers become Lean functions,
the mutable registry and the on-disk stage directory become explicit state
values threaded through the operations, and Python exceptions become an
`Except` result (with the state at the moment the exception escapes, since
Python exceptions do not roll back mutations).  External collaborators
(`Spec`, `ProviderIndex`, fetch strategies, the filesystem and the
configuration) are parameters of the model, collected in an `Env` record.
-/

/-! ## String ordering

Python sorting (`list.sort()`) on strings is lexicographic by code point.
`lexLe` is that order on the underlying character lists; `strLe` lifts it to
strings.  The order-theoretic instances below let us use the Mathlib
`List.insertionSort` lemmas for it. -/

def lexLe : List Char → List Char → Bool
  | [], _ => true
  | _ :: _, [] => false
  | a :: as, b :: bs =>
      if a < b then true
      else if b < a then false
      else lexLe as bs

def strLe (a b : String) : Prop := lexLe a.data b.data = true

instance : DecidableRel strLe := fun a b => by unfold strLe; infer_instance

theorem lexLe_cons_iff (a b : Char) (as bs : List Char) :
    lexLe (a :: as) (b :: bs) = true ↔ a < b ∨ (a = b ∧ lexLe as bs = true) := by
  have h : lexLe (a :: as) (b :: bs)
      = if a < b then true else if b < a then false else lexLe as bs := rfl
  rw [h]
  split_ifs with h1 h2
  · simp [h1]
  · simp only [false_iff]
    rintro (hlt | ⟨heq, -⟩)
    · exact absurd hlt (lt_asymm h2)
    · exact absurd h2 (heq ▸ lt_irrefl a)
  · have hab : a = b := le_antisymm (not_lt.mp h2) (not_lt.mp h1)
    simp [hab, lt_irrefl]

theorem lexLe_total : ∀ x y : List Char, lexLe x y = true ∨ lexLe y x = true
  | [], _ => Or.inl rfl
  | _ :: _, [] => Or.inr rfl
  | a :: as, b :: bs => by
      rcases lt_trichotomy a b with h | h | h
      · exact Or.inl ((lexLe_cons_iff a b as bs).mpr (Or.inl h))
      · subst h
        rcases lexLe_total as bs with h' | h'
        · exact Or.inl ((lexLe_cons_iff a a as bs).mpr (Or.inr ⟨rfl, h'⟩))
        · exact Or.inr ((lexLe_cons_iff a a bs as).mpr (Or.inr ⟨rfl, h'⟩))
      · exact Or.inr ((lexLe_cons_iff b a bs as).mpr (Or.inl h))

theorem lexLe_trans : ∀ x y z : List Char,
    lexLe x y = true → lexLe y z = true → lexLe x z = true
  | [], _, _, _, _ => rfl
  | _ :: _, [], _, h1, _ => by cases h1
  | _ :: _, _ :: _, [], _, h2 => by cases h2
  | a :: as, b :: bs, c :: cs, h1, h2 => by
      rcases (lexLe_cons_iff a b as bs).mp h1 with hab | ⟨heq1, hab⟩
      · rcases (lexLe_cons_iff b c bs cs).mp h2 with hbc | ⟨heq2, hbc⟩
        · exact (lexLe_cons_iff a c as cs).mpr (Or.inl (lt_trans hab hbc))
        · exact (lexLe_cons_iff a c as cs).mpr (Or.inl (heq2 ▸ hab))
      · rcases (lexLe_cons_iff b c bs cs).mp h2 with hbc | ⟨heq2, hbc⟩
        · exact (lexLe_cons_iff a c as cs).mpr (Or.inl (heq1 ▸ hbc))
        · exact (lexLe_cons_iff a c as cs).mpr
            (Or.inr ⟨heq1.trans heq2, lexLe_trans as bs cs hab hbc⟩)

theorem lexLe_antisymm : ∀ x y : List Char,
    lexLe x y = true → lexLe y x = true → x = y
  | [], [], _, _ => rfl
  | [], _ :: _, _, h2 => by cases h2
  | _ :: _, [], h1, _ => by cases h1
  | a :: as, b :: bs, h1, h2 => by
      rcases (lexLe_cons_iff a b as bs).mp h1 with hab | ⟨heq1, hab⟩
      · rcases (lexLe_cons_iff b a bs as).mp h2 with hba | ⟨heq2, -⟩
        · exact absurd hab (lt_asymm hba)
        · exact absurd hab (heq2 ▸ lt_irrefl b)
      · rcases (lexLe_cons_iff b a bs as).mp h2 with hba | ⟨-, hba⟩
        · exact absurd hba (heq1 ▸ lt_irrefl a)
        · rw [heq1, lexLe_antisymm as bs hab hba]

instance : IsTotal String strLe := ⟨fun a b => lexLe_total a.data b.data⟩

instance : IsTrans String strLe := ⟨fun a b c => lexLe_trans a.data b.data c.data⟩

instance : IsAntisymm String strLe :=
  ⟨fun a b h1 h2 => by
    cases a; cases b
    exact congrArg String.mk (lexLe_antisymm _ _ h1 h2)⟩

instance : IsRefl String strLe :=
  ⟨fun a => by
    rcases lexLe_total a.data a.data with h | h <;> exact h⟩

/-- Python sorting, `list.sort()` / `sorted()`, on a list of strings. -/
def pySort (l : List String) : List String := List.insertionSort strLe l

theorem pySort_perm (l : List String) : (pySort l).Perm l := List.perm_insertionSort _ l

theorem pySort_sorted (l : List String) : (pySort l).Sorted strLe :=
  List.sorted_insertionSort _ l

/-- Sorting is a function of the multiset of elements: two lists that are
permutations of one another have the same sort. -/
theorem pySort_congr_perm {l1 l2 : List String} (h : l1.Perm l2) : pySort l1 = pySort l2 :=
  List.eq_of_perm_of_sorted ((pySort_perm l1).trans (h.trans (pySort_perm l2).symm))
    (pySort_sorted l1) (pySort_sorted l2)

/-! ## `llnl/util/lang.py`: `key_ordering` and `HashableMap` (claim C10)

`key_ordering` installs, on a class that defines `_cmp_key()`:
  `__eq__   = lambda s,o: o is not None and s._cmp_key() == o._cmp_key()`
  `__hash__ = lambda self: hash(self._cmp_key())`
We model a decorated class by its comparison-key function `cmpKey : α → K`.
`o` may be `None`, so the right operand is an `Option α`.  The Python builtin
`hash` on the key value is an arbitrary function of that value (true for the
tuples of well-behaved values that `_cmp_key` returns), modelled as an
arbitrary `pyHash : K → Int`. -/

def key_eq {α K : Type} [DecidableEq K] (cmpKey : α → K) (s : α) (o : Option α) : Bool :=
  match o with
  | none => false
  | some t => decide (cmpKey s = cmpKey t)

def key_hash {α K : Type} (cmpKey : α → K) (pyHash : K → Int) (x : α) : Int :=
  pyHash (cmpKey x)

/-- The `HashableMap` class is a dict whose `_cmp_key` is `tuple(sorted(self.values()))`.
The dict is modelled as an association list (Python dicts preserve insertion
order); only string values are needed here. -/
def hashableMap_cmp_key (m : List (String × String)) : List String :=
  pySort (m.map Prod.snd)

/-! ## `stage.py`: fetch with mirror fallback (claim C2)

The two kinds of fetch strategy the stage distinguishes: `URLFetchStrategy`
(archive download, carrying a url and an optional checksum digest) and any
non-URL strategy (version-control checkout), identified abstractly.  Whether
a given attempt succeeds or raises a `SpackError` is external behaviour,
modelled by an `outcome` predicate. -/

inductive FetchStrategy where
  | url (u : String) (digest : Option String)
  | vcs (id : Nat)
deriving DecidableEq

/-- Source: `digest = None; if isinstance(self.fetcher, fs.URLFetchStrategy): digest = self.fetcher.digest` -/
def fetcher_digest : FetchStrategy → Option String
  | .url _ d => d
  | .vcs _ => none

/-- Python truthiness of the `mirror_path` attribute: `None` and `""` are falsy. -/
def mirror_path_set : Option String → Bool
  | none => false
  | some s => !(s == "")

/-- The ordered attempt list `fetchers` built by `Stage.fetch`: one
`URLFetchStrategy("%s/%s" % (m, mirror_path), digest)` per configured mirror,
followed by the primary strategy (`fetchers = [self.fetcher]` to start, the
mirror list is prepended). -/
def build_fetchers (mirrors : List String) (mirror_path : Option String)
    (primary : FetchStrategy) : List FetchStrategy :=
  if mirror_path_set mirror_path then
    let p := mirror_path.getD ""
    (mirrors.map (fun m => FetchStrategy.url (m ++ "/" ++ p) (fetcher_digest primary)))
      ++ [primary]
  else [primary]

/-- The `for fetcher in fetchers: try: fetcher.fetch(); break except SpackError:
continue` loop.  Returns the list of attempts actually tried, in order, and the
first attempt that completed without error (`none` when every attempt failed;
the loop then falls through and `fetch` returns normally). -/
def try_fetchers (outcome : FetchStrategy → Bool) :
    List FetchStrategy → List FetchStrategy × Option FetchStrategy
  | [] => ([], none)
  | f :: rest =>
      if outcome f then ([f], some f)
      else
        let r := try_fetchers outcome rest
        (f :: r.1, r.2)

/-- Source `Stage.fetch`: build the attempt list, then try the attempts in order.
(The initial `self.chdir()` requires an already set-up stage and is not part
of the fallback logic modelled here.) -/
def Stage.fetch (mirrors : List String) (mirror_path : Option String)
    (primary : FetchStrategy) (outcome : FetchStrategy → Bool) :
    List FetchStrategy × Option FetchStrategy :=
  try_fetchers outcome (build_fetchers mirrors mirror_path primary)

theorem try_fetchers_some (outcome : FetchStrategy → Bool) :
    ∀ (l tried : List FetchStrategy) (w : FetchStrategy),
      try_fetchers outcome l = (tried, some w) →
      outcome w = true ∧ tried = l.takeWhile (fun f => !outcome f) ++ [w]
  | [], _, _, h => by cases h
  | f :: rest, tried, w, h => by
      rcases hr : try_fetchers outcome rest with ⟨t2, o2⟩
      by_cases hf : outcome f
      · rw [show try_fetchers outcome (f :: rest)
            = if outcome f then ([f], some f)
              else (f :: (try_fetchers outcome rest).1, (try_fetchers outcome rest).2)
            from rfl, if_pos hf, Prod.mk.injEq] at h
        obtain ⟨h1, h2⟩ := h
        obtain rfl := Option.some.inj h2
        subst h1
        simp [List.takeWhile, hf]
      · rw [show try_fetchers outcome (f :: rest)
            = if outcome f then ([f], some f)
              else (f :: (try_fetchers outcome rest).1, (try_fetchers outcome rest).2)
            from rfl, if_neg hf, hr, Prod.mk.injEq] at h
        obtain ⟨h1, h2⟩ := h
        subst h1
        obtain ⟨hw, ht⟩ := try_fetchers_some outcome rest t2 w (by rw [hr, show o2 = some w from h2])
        refine ⟨hw, ?_⟩
        rw [ht]
        simp [List.takeWhile, hf]

theorem try_fetchers_none (outcome : FetchStrategy → Bool) :
    ∀ (l tried : List FetchStrategy),
      try_fetchers outcome l = (tried, none) →
      tried = l ∧ ∀ f ∈ l, outcome f = false
  | [], _, h => by
      obtain ⟨h1, -⟩ := Prod.mk.injEq .. ▸ h
      exact ⟨h1.symm ▸ rfl, by simp⟩
  | f :: rest, tried, h => by
      rcases hr : try_fetchers outcome rest with ⟨t2, o2⟩
      by_cases hf : outcome f
      · rw [show try_fetchers outcome (f :: rest)
            = if outcome f then ([f], some f)
              else (f :: (try_fetchers outcome rest).1, (try_fetchers outcome rest).2)
            from rfl, if_pos hf, Prod.mk.injEq] at h
        exact absurd h.2 (by simp)
      · rw [show try_fetchers outcome (f :: rest)
            = if outcome f then ([f], some f)
              else (f :: (try_fetchers outcome rest).1, (try_fetchers outcome rest).2)
            from rfl, if_neg hf, hr, Prod.mk.injEq] at h
        obtain ⟨h1, h2⟩ := h
        subst h1
        obtain ⟨ht, hall⟩ := try_fetchers_none outcome rest t2 (by rw [hr, show o2 = none from h2])
        subst ht
        refine ⟨rfl, ?_⟩
        intro g hg
        rcases List.mem_cons.mp hg with hg | hg
        · subst hg; simpa using hf
        · exact hall _ hg

/-! ## `stage.py`: stage directory setup and destruction (claims C7, C8)

The filesystem state at the stage `path` (one entry under the stage root) is
a small inductive: absent, a plain non-directory file, a plain directory, or a
symlink.  A symlink records whether its resolved target is a directory,
whether `realpath(path)` starts with `realpath(tmp_root)`, whether the target
exists, and a content identity (so "the same content" is expressible).
`id` fields identify content: setup allocating fresh content uses a fresh id.
Python path predicates (`os.path.exists`, `os.path.isdir`) follow symlinks. -/

structure LinkTarget where
  isDir : Bool
  underTmp : Bool
  present : Bool
  id : Nat
deriving DecidableEq

inductive PathEntry where
  | absent
  | file (id : Nat)
  | dir (id : Nat)
  | link (t : LinkTarget)
deriving DecidableEq

/-- Predicate `os.path.exists(path)` (follows symlinks; a dangling symlink "does not exist"). -/
def pathExists : PathEntry → Bool
  | .absent => false
  | .file _ => true
  | .dir _ => true
  | .link t => t.present

/-- Predicate `os.path.isdir(path)` (follows symlinks). -/
def pathIsDir : PathEntry → Bool
  | .dir _ => true
  | .link t => t.present && t.isDir
  | _ => false

/-- Predicate `os.path.islink(path)`. -/
def pathIsLink : PathEntry → Bool
  | .link _ => true
  | _ => false

/-- Condition `real_path.startswith(real_tmp) and os.path.exists(real_path)` for a link
(only consulted when `path` is a symlink and tmp staging is on; `tmp_root` is
assumed present there). -/
def linkTargetOk : PathEntry → Bool
  | .link t => t.underTmp && t.present
  | _ => false

/-- Source `Stage._need_to_create_path`: returns whether `path` must be (re)created,
together with the state of the entry afterwards (the function unlinks
wrong-typed or wrongly-targeted entries as a side effect). -/
def need_to_create_path (useTmp : Bool) (e : PathEntry) : Bool × PathEntry :=
  if !pathExists e then (true, e)
  else if !pathIsDir e then (true, .absent)
  else if pathIsLink e then
    if useTmp then
      if linkTargetOk e then (false, e) else (true, .absent)
    else (true, .absent)
  else (false, e)

/-- Source `Stage._cleanup_dead_links`, restricted to the own entry of the stage:
`if os.path.islink(path) and not os.path.exists(path): os.unlink(path)`. -/
def cleanup_dead_links (e : PathEntry) : PathEntry :=
  if pathIsLink e && !pathExists e then .absent else e

/-- Source `Stage._setup` for a named stage.  `useTmp` is `spack.use_tmp_stage`;
`hasTmpRoot` records whether `find_tmp_root()` found a writable temp root
(`self.tmp_root` non-None).  When creation is needed, temp mode makes a fresh
`mkdtemp` directory under the temp root and symlinks `path` to it; non-temp
mode runs `mkdirp(self.path)`.  `freshId` identifies the freshly created
content.  (`mkdirp(spack.stage_path)` and the final `ensure_access` are
outside this single-entry model.) -/
def stage_setup (useTmp hasTmpRoot : Bool) (freshId : Nat) (e : PathEntry) : PathEntry :=
  let e1 := cleanup_dead_links e
  if hasTmpRoot then
    let r := need_to_create_path useTmp e1
    if r.1 then .link ⟨true, true, true, freshId⟩ else r.2
  else
    let r := need_to_create_path useTmp e1
    if r.1 then .dir freshId else r.2

/-- The notion, per the claim, of an existing valid stage: `path` is a plain
directory, or (when temp staging is enabled with a temp root) a symlink whose
target is an existing directory under the temp root. -/
def valid_stage (hasTmpRoot : Bool) (e : PathEntry) : Prop :=
  (∃ i, e = .dir i) ∨
    (hasTmpRoot = true ∧ ∃ t : LinkTarget,
      e = .link t ∧ t.isDir = true ∧ t.underTmp = true ∧ t.present = true)

theorem stage_setup_of_valid (useTmp hasTmpRoot : Bool) (f : Nat) (e : PathEntry)
    (hv : valid_stage hasTmpRoot e) (h : useTmp = hasTmpRoot) :
    stage_setup useTmp hasTmpRoot f e = e := by
  subst h
  rcases hv with ⟨i, rfl⟩ | ⟨htmp, t, rfl, hd, hu, hp⟩
  · cases useTmp <;>
      simp [stage_setup, cleanup_dead_links, need_to_create_path, pathExists,
        pathIsDir, pathIsLink, linkTargetOk]
  · rw [htmp]
    simp [stage_setup, cleanup_dead_links, need_to_create_path, pathExists,
      pathIsDir, pathIsLink, linkTargetOk, hd, hu, hp]

theorem stage_setup_valid (useTmp hasTmpRoot : Bool) (f : Nat) (e : PathEntry)
    (h : useTmp = hasTmpRoot) :
    valid_stage hasTmpRoot (stage_setup useTmp hasTmpRoot f e) := by
  subst h
  cases useTmp with
  | false =>
      rcases e with _ | i | i | t <;>
        simp [stage_setup, cleanup_dead_links, need_to_create_path, pathExists,
          pathIsDir, pathIsLink, linkTargetOk, valid_stage]
      · rcases t with ⟨d, u, p, i⟩
        cases d <;> cases u <;> cases p <;>
          simp [stage_setup, cleanup_dead_links, need_to_create_path, pathExists,
            pathIsDir, pathIsLink, linkTargetOk, valid_stage]
  | true =>
      rcases e with _ | i | i | t <;>
        simp [stage_setup, cleanup_dead_links, need_to_create_path, pathExists,
          pathIsDir, pathIsLink, linkTargetOk, valid_stage]
      · rcases t with ⟨d, u, p, i⟩
        cases d <;> cases u <;> cases p <;>
          simp [stage_setup, cleanup_dead_links, need_to_create_path, pathExists,
            pathIsDir, pathIsLink, linkTargetOk, valid_stage]

/-! ## `stage.py`: `Stage.destroy` / `remove_linked_tree` (claim C8)

`remove_linked_tree(path)`:
```
if os.path.exists(path):
    if os.path.islink(path):
        shutil.rmtree(os.path.realpath(path), True)
        os.unlink(path)
    else:
        shutil.rmtree(path, True)
```
`shutil.rmtree(p, True)` ignores errors: on a plain (non-directory) file it
silently removes nothing; on the resolved non-directory target of a symlink the
target likewise survives, but the link itself is still unlinked.  The actions
performed are recorded so that the order (target tree first, then the link)
is expressible.  `Stage.destroy` additionally relocates the working directory
if it was inside the removed tree; that is outside this single-entry model. -/

inductive DestroyAct where
  | rmtreeReal (id : Nat)
  | unlinkPath
  | rmtreePath (id : Nat)
deriving DecidableEq

def remove_linked_tree (e : PathEntry) : PathEntry × List DestroyAct :=
  if pathExists e then
    if pathIsLink e then
      match e with
      | .link t => (.absent, [.rmtreeReal t.id, .unlinkPath])
      | _ => (e, [])
    else
      match e with
      | .dir i => (.absent, [.rmtreePath i])
      | .file i => (.file i, [.rmtreePath i])
      | _ => (e, [])
  else (e, [])

/-! ## `packages.py`: the package registry

`Spec` is the external concrete-identity type (`spack.spec`, outside the
modelled sources).  Modelled from the spec: a `ConcreteIdentity` has a name, a
`virtual` flag and equality/hash over its fully-resolved attributes; the
attributes other than the name (version, variants, ...) are abstracted into a
single `key : Nat`, and `copy()` produces an independent value that compares
equal.  Because the identity held by the caller is a mutable Python object while the
cache must key on a value snapshot (`spec.copy()`), spec objects live in an
explicit heap: a reference (`Nat`) the caller holds, mapped to its current
`SpecVal`.  Python dict operations on `Spec` keys compare by value equality
(`__eq__` from `key_ordering`, over `_cmp_key`). -/

/-- Modelled from the spec: the external ConcreteIdentity type (the "Spec" of
`spack.spec`, outside the modelled sources) — a name, a `virtual` flag, and
equality over the fully-resolved attributes, which are abstracted into
`key`. -/
structure SpecVal where
  name : String
  virtual : Bool
  key : Nat
deriving DecidableEq

/-- Errors surfaced by the registry.  `fatal` stands for the `tty.die` /
unhandled-exception paths (process abort). -/
inductive SpackErr where
  | unknownPackage (msg : String)
  | failedConstructor (name : String) (cause : String)
  | invalidName (name : String)
  | fatal (msg : String)
deriving DecidableEq

/-- External collaborators and recipe behaviour, as consumed by the registry:
the directory listing of `root`, which package directories contain a readable
`package.py` whose load succeeds, whether the constructor of a recipe raises (and
with what message), the recipe-declared dependency and provided-virtual names
of each package, and (modelled from the spec) the `ProviderIndex` query
behaviour as a function of the name list the index was built from. -/
structure Env where
  listdir : List String
  hasPackageFile : String → Bool
  validName : String → Bool
  loadOk : String → Bool
  constructorRaises : String → SpecVal → Option String
  deps_of : String → List String
  provided_of : String → List String
  indexProviders : List String → SpecVal → List SpecVal

/-- The `PackageDB` state.  `heap`/`nextRef` model the Python object heap for spec
objects; `instances` is the identity-keyed instance cache, an association
list of (key reference, package-instance identity) in insertion order —
Python dicts keep at most one entry per equality class, compare keys by value
and preserve insertion order.  `classCache`/`loadCount` model the `@memoized`
`get_class_for_package_name` cache, where a loaded class object is identified
by the value of the load counter at load time.  `providerIndex` is the lazily
built index, identified by the name list it was constructed from;
`namesCache` is the `@memoized` cache of `all_package_names`. -/
structure Registry where
  heap : Nat → SpecVal
  nextRef : Nat
  instances : List (Nat × Nat)
  nextInst : Nat
  classCache : List (String × Nat)
  loadCount : Nat
  providerIndex : Option (List String)
  namesCache : Option (List String)

/-- Python dict lookup `self.instances[spec]` / `spec in self.instances`:
scan for the first key whose current heap value equals `v`. -/
def lookupInst (heap : Nat → SpecVal) (v : SpecVal) : List (Nat × Nat) → Option Nat
  | [] => none
  | p :: rest => if heap p.1 = v then some p.2 else lookupInst heap v rest

/-- Python dict deletion `del self.instances[spec]`: drop the (single) entry
whose key equals `v`. -/
def eraseInst (heap : Nat → SpecVal) (v : SpecVal) : List (Nat × Nat) → List (Nat × Nat)
  | [] => []
  | p :: rest => if heap p.1 = v then rest else p :: eraseInst heap v rest

/-- Python dict lookup in the (string-keyed) memoization caches. -/
def lookupClass : List (String × Nat) → String → Option Nat
  | [], _ => none
  | p :: rest, n => if p.1 = n then some p.2 else lookupClass rest n

def Registry.lookup (st : Registry) (v : SpecVal) : Option Nat :=
  lookupInst st.heap v st.instances

/-- Mutation of a spec object the caller holds (e.g. `spec.normalize()`
changing its resolved attributes after a `get`). -/
def Registry.mutate (st : Registry) (ref : Nat) (v : SpecVal) : Registry :=
  { st with heap := fun r => if r = ref then v else st.heap r }

/-- Source `PackageDB.get_class_for_package_name` under its `@memoized` decorator.
On a cache miss: `validate_module_name` (external, raises on an invalid
name), then the `os.path.exists(file_path)` check (absent file raises
`UnknownPackageError("Package %s not found." % name)`), then the load; the
not-a-file / unreadable / import-failure / missing-class paths all `tty.die`,
collapsed into `Env.loadOk`.  A successful load is memoized; the memoized
wrapper caches nothing when the wrapped call raises. -/
def Registry.get_class_for_package_name (env : Env) (st : Registry) (name : String) :
    Registry × Except SpackErr Nat :=
  match lookupClass st.classCache name with
  | some c => (st, .ok c)
  | none =>
      if env.validName name then
        if env.hasPackageFile name then
          if env.loadOk name then
            ({ st with classCache := st.classCache ++ [(name, st.loadCount)],
                       loadCount := st.loadCount + 1 }, .ok st.loadCount)
          else (st, .error (.fatal ("cannot load recipe for " ++ name)))
        else (st, .error (.unknownPackage ("Package " ++ name ++ " not found.")))
      else (st, .error (.invalidName name))

/-- Source `PackageDB.get(spec, **kwargs)` for a spec object at heap reference
`ref`.  Virtual specs are rejected first.  With `new=True` any existing entry
for this identity is evicted.  On a cache miss the recipe class is resolved,
the constructor runs (its exception is wrapped in `FailedConstructorError`
carrying the original cause; Python evaluates the right-hand side before the
subscript, so nothing is inserted), and the fresh instance (identified by the
instance counter) is stored under `spec.copy()` — a freshly allocated
reference holding a snapshot of the current value.  Finally
`self.instances[spec]` is returned by dict lookup (`fatal "KeyError"` is the
unreachable-by-construction miss of that final lookup). -/
def Registry.get (env : Env) (st : Registry) (ref : Nat) (newFlag : Bool) :
    Registry × Except SpackErr Nat :=
  let v := st.heap ref
  if v.virtual then
    (st, .error (.unknownPackage ("Package " ++ v.name ++ " not found.")))
  else
    let st1 := if newFlag then
        (if (lookupInst st.heap v st.instances).isSome then
          { st with instances := eraseInst st.heap v st.instances }
        else st)
      else st
    match lookupInst st1.heap v st1.instances with
    | some i => (st1, .ok i)
    | none =>
        match Registry.get_class_for_package_name env st1 v.name with
        | (st2, .error e) => (st2, .error e)
        | (st2, .ok _cls) =>
            match env.constructorRaises v.name v with
            | some cause => (st2, .error (.failedConstructor v.name cause))
            | none =>
                let st3 : Registry := { st2 with
                  heap := fun r => if r = st2.nextRef then v else st2.heap r,
                  nextRef := st2.nextRef + 1,
                  instances := st2.instances ++ [(st2.nextRef, st2.nextInst)],
                  nextInst := st2.nextInst + 1 }
                match lookupInst st3.heap v st3.instances with
                | some i => (st3, .ok i)
                | none => (st3, .error (.fatal "KeyError"))

/-- Source `PackageDB.purge`: `self.instances.clear()`. -/
def Registry.purge (st : Registry) : Registry :=
  { st with instances := [] }

/-- Source `PackageDB.all_package_names` under `@memoized`: on a miss, loop over
`os.listdir(self.root)`, appending each name whose `package.py` is a file,
and (as written in the source) re-sorting the accumulator on every loop
iteration; the result is cached for the registry lifetime. -/
def Registry.all_package_names (env : Env) (st : Registry) : Registry × List String :=
  match st.namesCache with
  | some l => (st, l)
  | none =>
      let l := env.listdir.foldl
        (fun acc n => pySort (if env.hasPackageFile n then acc ++ [n] else acc)) []
      ({ st with namesCache := some l }, l)

/-- Source `PackageDB.providers_for`: build the `ProviderIndex` from
`all_package_names()` on first use (the index is identified by that name
list; its query behaviour is external, `Env.indexProviders`), query it, and
raise `UnknownPackageError("No such virtual package: %s" % vpkg_spec)` when
the provider set is empty. -/
def Registry.providers_for (env : Env) (st : Registry) (v : SpecVal) :
    Registry × Except SpackErr (List SpecVal) :=
  let r :=
    match st.providerIndex with
    | some ns => (st, ns)
    | none =>
        let r0 := Registry.all_package_names env st
        ({ r0.1 with providerIndex := some r0.2 }, r0.2)
  let provs := env.indexProviders r.2 v
  if provs.isEmpty then
    (r.1, .error (.unknownPackage ("No such virtual package: " ++ v.name)))
  else (r.1, .ok provs)

/-! ## `packages.py`: `graph_dependencies` (claim C3)

Output is modelled as the list of written lines.  `all_packages()` constructs
one package instance per known name via `get`; the recipe-declared attributes
consulted (`pkg.name`, `pkg.dependencies` keys, the names of `pkg.provided`)
come from `Env.deps_of` / `Env.provided_of` (instance construction is assumed
to succeed for every listed package; its cache effects are not consulted by
the graph output).  `set(p.name for p in pkg.provided)` deduplicates the
provided names; Python set iteration order is unspecified, modelled as
first-occurrence order. -/

/-- Python string formatting with "%-30s": left-justify in a field of width 30. -/
def ljust (s : String) (w : Nat) : String :=
  s ++ String.mk (List.replicate (w - s.length) ' ')

def quote (s : String) : String := "\"" ++ s ++ "\""

def node_line (name : String) : String :=
  "  " ++ ljust (quote name) 30 ++ " [label=" ++ quote name ++ "]"

def edge_line (a b : String) : String :=
  "  " ++ quote a ++ " -> " ++ quote b

def dedup_first (l : List String) : List String :=
  l.foldl (fun acc x => if x ∈ acc then acc else acc ++ [x]) []

def graph_header : List String :=
  ["digraph G \x7b",
   "  label = \"Spack Dependencies\"",
   "  labelloc = \"b\"",
   "  rankdir = \"LR\"",
   "  ranksep = \"5\"",
   ""]

def Registry.graph_dependencies (env : Env) (st : Registry) : Registry × List String :=
  let r := Registry.all_package_names env st
  let deps := r.2.foldl
    (fun acc n =>
      acc ++ (env.deps_of n).map (fun d => (n, d))
          ++ (dedup_first (env.provided_of n)).map (fun v => (v, n))) []
  (r.1, graph_header
    ++ r.2.map node_line
    ++ [""]
    ++ deps.map (fun p => edge_line p.1 p.2)
    ++ ["\x7d"])

/-! ## Registry invariants and lemmas -/

/-- Well-formedness of a registry state: cached key references and instance
identities are below the allocation counters, cached keys hold pairwise
distinct values (a Python dict has at most one entry per equality class) and
pairwise distinct instances. -/
def Registry.WF (st : Registry) : Prop :=
  (∀ p ∈ st.instances, p.1 < st.nextRef) ∧
  (∀ p ∈ st.instances, p.2 < st.nextInst) ∧
  st.instances.Pairwise (fun p q => st.heap p.1 ≠ st.heap q.1 ∧ p.2 ≠ q.2)

theorem lookupInst_congr (h1 h2 : Nat → SpecVal) (v : SpecVal) :
    ∀ l : List (Nat × Nat), (∀ p ∈ l, h1 p.1 = h2 p.1) →
      lookupInst h1 v l = lookupInst h2 v l
  | [], _ => rfl
  | p :: rest, hagree => by
      have hp := hagree p (List.mem_cons_self p rest)
      have hrest := lookupInst_congr h1 h2 v rest
        (fun q hq => hagree q (List.mem_cons_of_mem p hq))
      simp only [lookupInst, hp, hrest]

theorem lookupInst_append_none (h : Nat → SpecVal) (v : SpecVal)
    (l2 : List (Nat × Nat)) :
    ∀ l1 : List (Nat × Nat), lookupInst h v l1 = none →
      lookupInst h v (l1 ++ l2) = lookupInst h v l2
  | [], _ => rfl
  | p :: rest, hnone => by
      by_cases hp : h p.1 = v
      · simp [lookupInst, hp] at hnone
      · have e1 : lookupInst h v (p :: rest) = lookupInst h v rest := by
          simp [lookupInst, hp]
        have e2 : lookupInst h v ((p :: rest) ++ l2) = lookupInst h v (rest ++ l2) := by
          simp [lookupInst, hp]
        rw [e1] at hnone
        rw [e2]
        exact lookupInst_append_none h v l2 rest hnone

theorem lookupInst_none_iff (h : Nat → SpecVal) (v : SpecVal) :
    ∀ l : List (Nat × Nat), lookupInst h v l = none ↔ ∀ p ∈ l, h p.1 ≠ v
  | [] => by simp [lookupInst]
  | p :: rest => by
      by_cases hp : h p.1 = v
      · simp [lookupInst, hp]
      · simp [lookupInst, hp, lookupInst_none_iff h v rest]

theorem lookupInst_some_mem (h : Nat → SpecVal) (v : SpecVal) :
    ∀ (l : List (Nat × Nat)) (i : Nat), lookupInst h v l = some i →
      ∃ kr, (kr, i) ∈ l ∧ h kr = v
  | [], _, hm => by cases hm
  | p :: rest, i, hm => by
      by_cases hp : h p.1 = v
      · simp only [lookupInst, hp, if_pos, Option.some.injEq] at hm
        exact ⟨p.1, by simp [← hm], hp⟩
      · simp only [lookupInst, hp, if_neg, ite_false] at hm
        obtain ⟨kr, hmem, hkr⟩ := lookupInst_some_mem h v rest i hm
        exact ⟨kr, List.mem_cons_of_mem p hmem, hkr⟩

theorem lookupInst_of_mem_pairwise (h : Nat → SpecVal) (v : SpecVal) :
    ∀ (l : List (Nat × Nat)) (kr i : Nat),
      l.Pairwise (fun p q => h p.1 ≠ h q.1 ∧ p.2 ≠ q.2) →
      (kr, i) ∈ l → h kr = v → lookupInst h v l = some i
  | [], _, _, _, hm, _ => by cases hm
  | p :: rest, kr, i, hpw, hm, hv => by
      rcases List.mem_cons.mp hm with heq | hmem
      · simp [lookupInst, ← heq, hv]
      · have hne : h p.1 ≠ v := by
          intro hpv
          have := (List.pairwise_cons.mp hpw).1 (kr, i) hmem
          exact this.1 (hpv.trans hv.symm)
        simp only [lookupInst, hne, if_neg, ite_false]
        exact lookupInst_of_mem_pairwise h v rest kr i (List.pairwise_cons.mp hpw).2 hmem hv

theorem lookupClass_append_none (l2 : List (String × Nat)) (n : String) :
    ∀ l1 : List (String × Nat), lookupClass l1 n = none →
      lookupClass (l1 ++ l2) n = lookupClass l2 n
  | [], _ => rfl
  | p :: rest, hnone => by
      by_cases hp : p.1 = n
      · simp [lookupClass, hp] at hnone
      · simp only [lookupClass, hp, if_neg, List.cons_append, ite_false] at hnone ⊢
        exact lookupClass_append_none l2 n rest hnone

/-- Resolution via `get_class_for_package_name` only touches the class cache and the load
counter. -/
theorem get_class_frame (env : Env) (st : Registry) (n : String) :
    (Registry.get_class_for_package_name env st n).1.heap = st.heap ∧
    (Registry.get_class_for_package_name env st n).1.nextRef = st.nextRef ∧
    (Registry.get_class_for_package_name env st n).1.instances = st.instances ∧
    (Registry.get_class_for_package_name env st n).1.nextInst = st.nextInst ∧
    (Registry.get_class_for_package_name env st n).1.providerIndex = st.providerIndex ∧
    (Registry.get_class_for_package_name env st n).1.namesCache = st.namesCache := by
  cases h : lookupClass st.classCache n with
  | some c => simp [Registry.get_class_for_package_name, h]
  | none =>
      simp only [Registry.get_class_for_package_name, h]
      split_ifs <;> simp

/-- After a successful class resolution the class cache answers for that name
with the returned class object. -/
theorem get_class_ok_lookup (env : Env) (st st1 : Registry) (n : String) (c : Nat)
    (h : Registry.get_class_for_package_name env st n = (st1, .ok c)) :
    lookupClass st1.classCache n = some c := by
  cases hl : lookupClass st.classCache n with
  | some c0 =>
      simp only [Registry.get_class_for_package_name, hl, Prod.mk.injEq] at h
      obtain ⟨hst, hc⟩ := h
      rw [← hst, hl, Except.ok.inj hc]
  | none =>
      simp only [Registry.get_class_for_package_name, hl] at h
      split_ifs at h with h1 h2 h3
      · simp only [Prod.mk.injEq] at h
        obtain ⟨hst, hc⟩ := h
        rw [← hst]
        simp only
        rw [lookupClass_append_none _ n st.classCache hl]
        simp [lookupClass, Except.ok.inj hc]
      · simp at h
      · simp at h
      · simp at h

/-- Full characterization of a successful plain `get` (no `new` flag): either
a cache hit returning the cached instance with the state untouched, or a
cache miss that resolves the class, runs the constructor, and appends a fresh
entry keyed by a fresh reference holding a snapshot of the identity value. -/
theorem get_ok_cases (env : Env) (st st' : Registry) (a i : Nat)
    (hrefs : ∀ p ∈ st.instances, p.1 < st.nextRef)
    (h : Registry.get env st a false = (st', .ok i)) :
    (st.heap a).virtual = false ∧
    ((lookupInst st.heap (st.heap a) st.instances = some i ∧ st' = st) ∨
     (lookupInst st.heap (st.heap a) st.instances = none ∧
      ∃ st2 c, Registry.get_class_for_package_name env st (st.heap a).name = (st2, .ok c) ∧
        env.constructorRaises (st.heap a).name (st.heap a) = none ∧
        i = st2.nextInst ∧
        st' = { st2 with
          heap := fun r => if r = st2.nextRef then st.heap a else st2.heap r,
          nextRef := st2.nextRef + 1,
          instances := st2.instances ++ [(st2.nextRef, st2.nextInst)],
          nextInst := st2.nextInst + 1 })) := by
  by_cases hv : (st.heap a).virtual = true
  · exfalso
    simp [Registry.get, hv] at h
  · have hv' : (st.heap a).virtual = false := by simpa using hv
    refine ⟨hv', ?_⟩
    cases hl : lookupInst st.heap (st.heap a) st.instances with
    | some j =>
        left
        simp only [Registry.get, hv', Bool.false_eq_true, if_false, ite_false, hl] at h
        injection h with hs he
        injection he with hji
        exact ⟨congrArg some hji, hs.symm⟩
    | none =>
        right
        refine ⟨rfl, ?_⟩
        rcases hg : Registry.get_class_for_package_name env st (st.heap a).name with ⟨st2, r⟩
        have hframe := get_class_frame env st (st.heap a).name
        rw [hg] at hframe
        dsimp only at hframe
        obtain ⟨fheap, fnref, finsts, fninst, -, -⟩ := hframe
        cases r with
        | error e =>
            exfalso
            simp only [Registry.get, hv', Bool.false_eq_true, if_false, ite_false, hl, hg] at h
            injection h with _ he
            exact Except.noConfusion he
        | ok c =>
            refine ⟨st2, c, rfl, ?_⟩
            cases hc : env.constructorRaises (st.heap a).name (st.heap a) with
            | some cause =>
                exfalso
                simp only [Registry.get, hv', Bool.false_eq_true, if_false, ite_false,
                  hl, hg, hc] at h
                injection h with _ he
                exact Except.noConfusion he
            | none =>
                refine ⟨rfl, ?_⟩
                have hold : lookupInst
                    (fun r => if r = st2.nextRef then st.heap a else st2.heap r)
                    (st.heap a) st2.instances = none := by
                  rw [lookupInst_congr _ st.heap _ st2.instances]
                  · rw [finsts]; exact hl
                  · intro p hp
                    have hlt : p.1 < st.nextRef := hrefs p (finsts ▸ hp)
                    have hne : p.1 ≠ st2.nextRef := by rw [fnref]; omega
                    simp [hne, fheap]
                have hfinal : lookupInst
                    (fun r => if r = st2.nextRef then st.heap a else st2.heap r)
                    (st.heap a) (st2.instances ++ [(st2.nextRef, st2.nextInst)])
                    = some st2.nextInst := by
                  rw [lookupInst_append_none _ _ _ st2.instances hold]
                  simp [lookupInst]
                simp only [Registry.get, hv', Bool.false_eq_true, if_false, ite_false,
                  hl, hg, hc, hfinal] at h
                injection h with hs he
                injection he with hji
                exact ⟨hji.symm, hs.symm⟩

/-- A virtual identity is rejected up front, with the state untouched and no
class resolution or construction attempted. -/
theorem get_virtual (env : Env) (st : Registry) (ref : Nat) (nf : Bool)
    (h : (st.heap ref).virtual = true) :
    Registry.get env st ref nf
      = (st, .error (.unknownPackage ("Package " ++ (st.heap ref).name ++ " not found."))) := by
  simp [Registry.get, h]

/-- Cache-hit computation rule for `get`. -/
theorem get_hit (env : Env) (st : Registry) (ref i : Nat)
    (hv : (st.heap ref).virtual = false)
    (hl : lookupInst st.heap (st.heap ref) st.instances = some i) :
    Registry.get env st ref false = (st, .ok i) := by
  simp [Registry.get, hv, hl]

/-- A raising recipe constructor surfaces as `FailedConstructorError` carrying
the original cause; the class-resolution state is kept (its memoization is a
real side effect) but nothing is added to the instance cache. -/
theorem get_ctor_fail (env : Env) (st st2 : Registry) (ref c : Nat) (cause : String)
    (hv : (st.heap ref).virtual = false)
    (hl : lookupInst st.heap (st.heap ref) st.instances = none)
    (hg : Registry.get_class_for_package_name env st (st.heap ref).name = (st2, .ok c))
    (hc : env.constructorRaises (st.heap ref).name (st.heap ref) = some cause) :
    Registry.get env st ref false
      = (st2, .error (.failedConstructor (st.heap ref).name cause)) := by
  simp [Registry.get, hv, hl, hg, hc]

/-- A successful `get` preserves well-formedness. -/
theorem wf_get (env : Env) (st st' : Registry) (a i : Nat)
    (hwf : Registry.WF st)
    (h : Registry.get env st a false = (st', .ok i)) : Registry.WF st' := by
  obtain ⟨hrefs, hinsts, hpw⟩ := hwf
  obtain ⟨hv, hcase⟩ := get_ok_cases env st st' a i hrefs h
  rcases hcase with ⟨-, rfl⟩ | ⟨hl, st2, c, hg, hc, hieq, rfl⟩
  · exact ⟨hrefs, hinsts, hpw⟩
  · have hframe := get_class_frame env st (st.heap a).name
    rw [hg] at hframe
    dsimp only at hframe
    obtain ⟨fheap, fnref, finsts, fninst, -, -⟩ := hframe
    refine ⟨?_, ?_, ?_⟩
    · intro p hp
      rcases List.mem_append.mp hp with hp | hp
      · have := hrefs p (finsts ▸ hp)
        dsimp only
        omega
      · simp only [List.mem_singleton] at hp
        rw [hp]
        dsimp only
        omega
    · intro p hp
      rcases List.mem_append.mp hp with hp | hp
      · have := hinsts p (finsts ▸ hp)
        dsimp only
        rw [fninst]
        omega
      · simp only [List.mem_singleton] at hp
        rw [hp]
        dsimp only
        omega
    · dsimp only
      rw [List.pairwise_append]
      refine ⟨?_, by simp, ?_⟩
      · have hmemval : ∀ p ∈ st2.instances,
            (if p.1 = st2.nextRef then st.heap a else st2.heap p.1) = st.heap p.1 := by
          intro p hp
          have hlt : p.1 < st.nextRef := hrefs p (finsts ▸ hp)
          have hne : p.1 ≠ st2.nextRef := by rw [fnref]; omega
          simp [hne, congrFun fheap p.1]
        refine List.Pairwise.imp_of_mem ?_ (finsts ▸ hpw)
        intro p q hp hq hpq
        constructor
        · intro hcon
          apply hpq.1
          rw [← hmemval p hp, ← hmemval q hq]
          exact hcon
        · exact hpq.2
      · intro p hp q hq
        simp only [List.mem_singleton] at hq
        subst hq
        have hlt : p.1 < st.nextRef := hrefs p (finsts ▸ hp)
        have hne : p.1 ≠ st2.nextRef := by rw [fnref]; omega
        constructor
        · have hval : st.heap p.1 ≠ st.heap a :=
            (lookupInst_none_iff st.heap (st.heap a) st.instances).mp hl p (finsts ▸ hp)
          simp only [hne, if_neg, ite_false, if_pos]
          rw [congrFun fheap p.1]
          simpa using hval
        · have := hinsts p (finsts ▸ hp)
          dsimp only
          rw [fninst]
          omega

/-- Post-conditions of a successful plain `get`: the result is cached for the
value of the identity, existing heap cells and cache entries are preserved, and
any new entry uses a freshly allocated key reference. -/
theorem get_ok_post (env : Env) (st st' : Registry) (a i : Nat)
    (hrefs : ∀ p ∈ st.instances, p.1 < st.nextRef)
    (h : Registry.get env st a false = (st', .ok i)) :
    lookupInst st'.heap (st.heap a) st'.instances = some i ∧
    (∀ x, x < st.nextRef → st'.heap x = st.heap x) ∧
    st.nextRef ≤ st'.nextRef ∧
    (∀ p ∈ st'.instances, p ∈ st.instances ∨ st.nextRef ≤ p.1) ∧
    (∀ p ∈ st.instances, p ∈ st'.instances) := by
  obtain ⟨hv, hcase⟩ := get_ok_cases env st st' a i hrefs h
  rcases hcase with ⟨hl, rfl⟩ | ⟨hl, st2, c, hg, hc, rfl, rfl⟩
  · exact ⟨hl, fun x _ => rfl, le_refl _, fun p hp => Or.inl hp, fun p hp => hp⟩
  · have hframe := get_class_frame env st (st.heap a).name
    rw [hg] at hframe
    dsimp only at hframe
    obtain ⟨fheap, fnref, finsts, fninst, -, -⟩ := hframe
    have hold : lookupInst
        (fun r => if r = st2.nextRef then st.heap a else st2.heap r)
        (st.heap a) st2.instances = none := by
      rw [lookupInst_congr _ st.heap _ st2.instances]
      · rw [finsts]; exact hl
      · intro p hp
        have hlt : p.1 < st.nextRef := hrefs p (finsts ▸ hp)
        have hne : p.1 ≠ st2.nextRef := by rw [fnref]; omega
        simp [hne, congrFun fheap p.1]
    refine ⟨?_, ?_, ?_, ?_, ?_⟩
    · dsimp only
      rw [lookupInst_append_none _ _ _ st2.instances hold]
      simp [lookupInst]
    · intro x hx
      have hne : x ≠ st2.nextRef := by rw [fnref]; omega
      dsimp only
      simp [hne, congrFun fheap x]
    · dsimp only
      rw [fnref]
      omega
    · intro p hp
      dsimp only at hp
      rcases List.mem_append.mp hp with hp | hp
      · exact Or.inl (finsts ▸ hp)
      · simp only [List.mem_singleton] at hp
        rw [hp]
        dsimp only
        rw [fnref]
        exact Or.inr (le_refl _)
    · intro p hp
      dsimp only
      exact List.mem_append.mpr (Or.inl (finsts ▸ hp))

/-- The `all_package_names` loop (append when the recipe file exists, then
re-sort inside the loop) computes the sort of the filtered directory
listing. -/
theorem foldl_sort_append (p : String → Bool) :
    ∀ (l acc : List String),
      l.foldl (fun acc2 n => pySort (if p n then acc2 ++ [n] else acc2)) (pySort acc)
        = pySort (acc ++ l.filter p)
  | [], acc => by simp
  | n :: l, acc => by
      simp only [List.foldl_cons]
      by_cases hp : p n
      · rw [if_pos hp, pySort_congr_perm ((pySort_perm acc).append_right [n]),
          foldl_sort_append p l (acc ++ [n]), List.filter_cons_of_pos hp,
          List.append_assoc, List.singleton_append]
      · rw [if_neg hp, pySort_congr_perm (pySort_perm acc),
          foldl_sort_append p l acc, List.filter_cons_of_neg hp]

/-- The edge-collection loop of `graph_dependencies` as a `flatMap`. -/
theorem foldl_edges_flatMap (g h : String → List (String × String)) :
    ∀ (l : List String) (acc : List (String × String)),
      l.foldl (fun acc2 n => acc2 ++ g n ++ h n) acc
        = acc ++ l.flatMap (fun n => g n ++ h n)
  | [], acc => by simp
  | n :: l, acc => by
      rw [List.foldl_cons, foldl_edges_flatMap g h l, List.flatMap_cons]
      simp [List.append_assoc]

/-- Computation rule for `all_package_names` on a cold cache. -/
theorem all_package_names_eq (env : Env) (st : Registry) (h : st.namesCache = none) :
    Registry.all_package_names env st
      = ({ st with namesCache := some (pySort (env.listdir.filter env.hasPackageFile)) },
         pySort (env.listdir.filter env.hasPackageFile)) := by
  have hf := foldl_sort_append env.hasPackageFile env.listdir []
  rw [show pySort ([] : List String) = [] from rfl, List.nil_append] at hf
  simp only [Registry.all_package_names, h, hf]

/-! ## Concrete instantiations used by the witnesses -/

/-- Two concrete non-virtual identities sharing the package name `zlib` but
differing in their other resolved attributes, and one virtual identity. -/
def specA : SpecVal := ⟨"zlib", false, 0⟩

def specB : SpecVal := ⟨"zlib", false, 1⟩

def specV : SpecVal := ⟨"mpi", true, 0⟩

def heap0 : Nat → SpecVal :=
  fun r => if r = 0 then specA else if r = 1 then specB else specV

/-- A fresh registry whose heap holds `specA` at reference 0, `specB` at
reference 1 and `specV` at reference 2. -/
def st0 : Registry := ⟨heap0, 3, [], 0, [], 0, none, none⟩

def env0 : Env :=
  ⟨["zlib", "boost", "scratch"], fun n => n != "scratch", fun _ => true, fun _ => true,
   fun _ _ => none, fun _ => [], fun _ => [], fun _ _ => []⟩

/-- Like `env0` but every recipe constructor raises. -/
def envC5 : Env :=
  ⟨["zlib", "boost", "scratch"], fun n => n != "scratch", fun _ => true, fun _ => true,
   fun _ _ => some "boom", fun _ => [], fun _ => [], fun _ _ => []⟩

/-- Like `env0` but every provider query answers with `specA`. -/
def envC6 : Env :=
  ⟨["zlib", "boost", "scratch"], fun n => n != "scratch", fun _ => true, fun _ => true,
   fun _ _ => none, fun _ => [], fun _ => [], fun _ _ => [specA]⟩

/-- A registry whose provider index has already been built from `["zlib"]`. -/
def st6 : Registry := ⟨heap0, 3, [], 0, [], 0, some ["zlib"], none⟩

/-- Two packages `A` and `B`, where `A` depends on `B`; nothing is provided. -/
def env3 : Env :=
  ⟨["A", "B"], fun _ => true, fun _ => true, fun _ => true,
   fun _ _ => none, fun n => if n = "A" then ["B"] else [], fun _ => [], fun _ _ => []⟩

def c1st1 : Registry := (Registry.get env0 st0 0 false).1

def c1st2 : Registry := (Registry.get env0 c1st1 1 false).1

def c9st1 : Registry := (Registry.get_class_for_package_name env0 st0 "zlib").1

def c5st2 : Registry := (Registry.get_class_for_package_name envC5 st0 "zlib").1

def c2outcome : FetchStrategy → Bool :=
  fun f => f == .url "http://m2/d/z.tgz" (some "D")

/-! ## Claim theorems -/

/-- C10: for every class decorated with `key_ordering` (the identity types
used as instance-cache keys, `HashableMap`, ...), the generated equality and
hash both derive from `_cmp_key`: `x == y` implies `hash(x) == hash(y)`, and
comparing any value against `None` with `==` yields false. -/
theorem claim_c10 {α K : Type} [DecidableEq K] (cmpKey : α → K) (pyHash : K → Int)
    (x y : α) :
    (key_eq cmpKey x (some y) = true →
      key_hash cmpKey pyHash x = key_hash cmpKey pyHash y) ∧
    key_eq cmpKey x none = false := by
  constructor
  · intro h
    have hk : cmpKey x = cmpKey y := of_decide_eq_true h
    simp [key_hash, hk]
  · rfl

theorem claim_c10_witness :
    key_hash hashableMap_cmp_key (fun l => (l.length : Int)) [("a", "x"), ("b", "y")]
      = key_hash hashableMap_cmp_key (fun l => (l.length : Int)) [("b", "x"), ("c", "y")] ∧
    key_eq hashableMap_cmp_key [("a", "x"), ("b", "y")] none = false := by
  have h := claim_c10 hashableMap_cmp_key (fun l => (l.length : Int))
    [("a", "x"), ("b", "y")] [("b", "x"), ("c", "y")]
  exact ⟨h.1 (by decide), h.2⟩

/-- C2: with a configured mirror path, `fetch` builds one attempt per mirror
(URL = mirror base + "/" + mirror path, carrying the checksum of the primary when
the primary is archive-based) followed by the primary last; attempts are
tried strictly in order, the first success stops the loop (later attempts,
including the primary, are untried), a failing attempt falls through to the
next, and when every attempt fails the method returns without raising. -/
theorem claim_c2 (mirrors : List String) (p : String) (primary : FetchStrategy)
    (outcome : FetchStrategy → Bool) (hp : p ≠ "") :
    build_fetchers mirrors (some p) primary
      = mirrors.map (fun m => FetchStrategy.url (m ++ "/" ++ p) (fetcher_digest primary))
        ++ [primary] ∧
    (∀ tried w, Stage.fetch mirrors (some p) primary outcome = (tried, some w) →
      outcome w = true ∧
      tried = (build_fetchers mirrors (some p) primary).takeWhile (fun f => !outcome f)
        ++ [w]) ∧
    (∀ tried, Stage.fetch mirrors (some p) primary outcome = (tried, none) →
      tried = build_fetchers mirrors (some p) primary ∧
      ∀ f ∈ build_fetchers mirrors (some p) primary, outcome f = false) := by
  refine ⟨by simp [build_fetchers, mirror_path_set, hp], ?_, ?_⟩
  · intro tried w h
    simp only [Stage.fetch] at h
    exact try_fetchers_some outcome (build_fetchers mirrors (some p) primary) tried w h
  · intro tried h
    simp only [Stage.fetch] at h
    exact try_fetchers_none outcome (build_fetchers mirrors (some p) primary) tried h

theorem claim_c2_witness :
    Stage.fetch ["http://m1", "http://m2"] (some "d/z.tgz")
        (.url "http://x/z.tgz" (some "D")) c2outcome
      = ([.url "http://m1/d/z.tgz" (some "D"), .url "http://m2/d/z.tgz" (some "D")],
         some (.url "http://m2/d/z.tgz" (some "D"))) ∧
    (c2outcome (.url "http://m2/d/z.tgz" (some "D")) = true ∧
      [FetchStrategy.url "http://m1/d/z.tgz" (some "D"),
       FetchStrategy.url "http://m2/d/z.tgz" (some "D")]
        = (build_fetchers ["http://m1", "http://m2"] (some "d/z.tgz")
            (.url "http://x/z.tgz" (some "D"))).takeWhile (fun f => !c2outcome f)
          ++ [.url "http://m2/d/z.tgz" (some "D")]) := by
  refine ⟨by decide, ?_⟩
  exact (claim_c2 ["http://m1", "http://m2"] "d/z.tgz" (.url "http://x/z.tgz" (some "D"))
    c2outcome (by decide)).2.1
    [.url "http://m1/d/z.tgz" (some "D"), .url "http://m2/d/z.tgz" (some "D")]
    (.url "http://m2/d/z.tgz" (some "D")) (by decide)

/-- C7: stage setup is idempotent: against an existing valid stage (a plain
directory, or — with temp staging on — a symlink to an existing target under
the temp root) it does not destroy prior work and leaves `path` pointing at
the same content, and it only replaces or relinks entries that are missing,
wrong-typed, or whose symlink target lies outside the expected temp root
(`useTmp = hasTmpRoot` excludes the temp-requested-but-no-writable-root
configuration, in which the original code would fault on `realpath(None)`
before reaching this logic). -/
theorem claim_c7 (useTmp hasTmpRoot : Bool) (f1 f2 : Nat) (e : PathEntry)
    (h : useTmp = hasTmpRoot) :
    stage_setup useTmp hasTmpRoot f2 (stage_setup useTmp hasTmpRoot f1 e)
      = stage_setup useTmp hasTmpRoot f1 e ∧
    (valid_stage hasTmpRoot e → stage_setup useTmp hasTmpRoot f1 e = e) ∧
    (stage_setup useTmp hasTmpRoot f1 e ≠ e → ¬ valid_stage hasTmpRoot e) :=
  ⟨stage_setup_of_valid useTmp hasTmpRoot f2 _ (stage_setup_valid useTmp hasTmpRoot f1 e h) h,
   fun hv => stage_setup_of_valid useTmp hasTmpRoot f1 e hv h,
   fun hne hv => hne (stage_setup_of_valid useTmp hasTmpRoot f1 e hv h)⟩

theorem claim_c7_witness :
    stage_setup true true 6 (stage_setup true true 5 (.link ⟨true, true, true, 3⟩))
      = stage_setup true true 5 (.link ⟨true, true, true, 3⟩) ∧
    stage_setup true true 5 (.link ⟨true, true, true, 3⟩) = .link ⟨true, true, true, 3⟩ := by
  have h := claim_c7 true true 5 6 (.link ⟨true, true, true, 3⟩) rfl
  exact ⟨h.1, h.2.1 (Or.inr ⟨rfl, ⟨true, true, true, 3⟩, rfl, rfl, rfl, rfl⟩)⟩

/-- C8 counterexample: on a dangling symlink (`os.path.exists` is false)
`destroy` removes neither the target nor the link — contradicting "when path
is a symlink, destroy removes the resolved target tree first and then removes
the link"; and on a plain file the `shutil.rmtree(path, True)` attempt is
silently swallowed, so the path is not removed either. -/
theorem claim_c8_counterexample :
    remove_linked_tree (.link ⟨true, true, false, 7⟩)
        = (.link ⟨true, true, false, 7⟩, []) ∧
    remove_linked_tree (.file 3) = (.file 3, [.rmtreePath 3]) := by decide

/-- C8 amended: `destroy()` never raises and is idempotent in state — a
second call (or a call on a never-fetched stage) leaves the state unchanged;
when `path` is a symlink whose target exists, it removes the resolved target
tree first and then the link; when `path` is an existing plain directory it
removes it directly; when `path` does not exist (including a dangling
symlink) it does nothing; on a plain non-directory file the removal attempt
is silently swallowed and the file remains. -/
theorem claim_c8 (e : PathEntry) (t : LinkTarget) (i : Nat) :
    (remove_linked_tree (remove_linked_tree e).1).1 = (remove_linked_tree e).1 ∧
    (t.present = true →
      remove_linked_tree (.link t) = (.absent, [.rmtreeReal t.id, .unlinkPath])) ∧
    (t.present = false → remove_linked_tree (.link t) = (.link t, [])) ∧
    remove_linked_tree (.dir i) = (.absent, [.rmtreePath i]) ∧
    remove_linked_tree (.file i) = (.file i, [.rmtreePath i]) ∧
    remove_linked_tree .absent = (.absent, []) := by
  refine ⟨?_, ?_, ?_, ?_, ?_, ?_⟩
  · rcases e with _ | j | j | u
    · simp [remove_linked_tree, pathExists]
    · simp [remove_linked_tree, pathExists, pathIsLink]
    · simp [remove_linked_tree, pathExists, pathIsLink]
    · cases hu : u.present <;>
        simp [remove_linked_tree, pathExists, pathIsLink, hu]
  · intro hppr
    simp [remove_linked_tree, pathExists, pathIsLink, hppr]
  · intro hppr
    simp [remove_linked_tree, pathExists, hppr]
  · simp [remove_linked_tree, pathExists, pathIsLink]
  · simp [remove_linked_tree, pathExists, pathIsLink]
  · simp [remove_linked_tree, pathExists]

theorem claim_c8_witness :
    (remove_linked_tree (remove_linked_tree (.dir 4)).1).1 = (remove_linked_tree (.dir 4)).1 ∧
    remove_linked_tree (.link ⟨true, true, true, 9⟩)
      = (.absent, [.rmtreeReal 9, .unlinkPath]) := by
  have h := claim_c8 (.dir 4) ⟨true, true, true, 9⟩ 4
  exact ⟨h.1, h.2.1 rfl⟩

/-- C3 counterexample: on the two-package set where `A` depends on `B`, the
emitted edge line is `"A" -> "B"` (`deps.append((pkg.name, dep_name))` writes
the dependent first), and no `"B" -> "A"` line — indented as documented or
not — appears anywhere in the output. -/
theorem claim_c3_counterexample :
    "  \"A\" -> \"B\"" ∈ (Registry.graph_dependencies env3 st0).2 ∧
    "  \"B\" -> \"A\"" ∉ (Registry.graph_dependencies env3 st0).2 ∧
    "\"B\" -> \"A\"" ∉ (Registry.graph_dependencies env3 st0).2 := by decide

/-- C3 amended: after the fixed dot header, `graphDependencies` writes one
node line per known package (in `allPackageNames()` order) and one edge line
per direct dependency oriented dependent -> dependency — for `A` depending
on `B` the edge line is `"A" -> "B"` — plus an edge from each virtual name to
the concrete package providing it (`"virtual" -> "provider"`). -/
theorem claim_c3 (env : Env) (st : Registry) :
    Registry.graph_dependencies env st
      = ((Registry.all_package_names env st).1,
         graph_header
           ++ ((Registry.all_package_names env st).2).map node_line
           ++ [""]
           ++ (((Registry.all_package_names env st).2).flatMap (fun n =>
                 (env.deps_of n).map (fun d => (n, d))
                 ++ (dedup_first (env.provided_of n)).map (fun v => (v, n)))).map
               (fun q => edge_line q.1 q.2)
           ++ ["\x7d"]) := by
  simp only [Registry.graph_dependencies]
  rw [foldl_edges_flatMap (fun n => (env.deps_of n).map (fun d => (n, d)))
      (fun n => (dedup_first (env.provided_of n)).map (fun v => (v, n)))]
  simp

/-- C4: `allPackageNames()` returns exactly the names of the immediate
subdirectories of `root` that contain a `package.py`, in sorted order, and
the result is memoized for the registry lifetime — a second call returns the
same list under any later filesystem state. -/
theorem claim_c4 (env : Env) (st : Registry) (h : st.namesCache = none) :
    ((Registry.all_package_names env st).2).Perm
        (env.listdir.filter env.hasPackageFile) ∧
    ((Registry.all_package_names env st).2).Sorted strLe ∧
    (Registry.all_package_names env st).1.namesCache
        = some (Registry.all_package_names env st).2 ∧
    (∀ env2, Registry.all_package_names env2 (Registry.all_package_names env st).1
        = ((Registry.all_package_names env st).1, (Registry.all_package_names env st).2)) := by
  rw [all_package_names_eq env st h]
  exact ⟨pySort_perm _, pySort_sorted _, rfl,
    fun env2 => by simp [Registry.all_package_names]⟩

theorem claim_c4_witness :
    (Registry.all_package_names env0 st0).2 = ["boost", "zlib"] ∧
    ((Registry.all_package_names env0 st0).2).Sorted strLe ∧
    (∀ env2, Registry.all_package_names env2 (Registry.all_package_names env0 st0).1
        = ((Registry.all_package_names env0 st0).1, (Registry.all_package_names env0 st0).2)) := by
  refine ⟨by decide, ?_, ?_⟩
  · exact (claim_c4 env0 st0 rfl).2.1
  · exact (claim_c4 env0 st0 rfl).2.2.2

/-- C5: `get` on a virtual identity fails with `UnknownPackage` before any
construction is attempted (the state, including the class cache, is
untouched); `get` on a non-virtual identity whose recipe constructor raises
fails with `FailedConstructor` carrying the original cause, and the instance
cache is left unchanged by the failed call. -/
theorem claim_c5 (env : Env) (st st2 : Registry) (a c : Nat) (nf : Bool) (cause : String) :
    ((st.heap a).virtual = true →
      Registry.get env st a nf
        = (st, .error (.unknownPackage ("Package " ++ (st.heap a).name ++ " not found.")))) ∧
    ((st.heap a).virtual = false →
      lookupInst st.heap (st.heap a) st.instances = none →
      Registry.get_class_for_package_name env st (st.heap a).name = (st2, .ok c) →
      env.constructorRaises (st.heap a).name (st.heap a) = some cause →
      Registry.get env st a false
          = (st2, .error (.failedConstructor (st.heap a).name cause)) ∧
        st2.instances = st.instances) := by
  constructor
  · intro hv
    exact get_virtual env st a nf hv
  · intro hv hl hg hc
    refine ⟨get_ctor_fail env st st2 a c cause hv hl hg hc, ?_⟩
    have hfr := (get_class_frame env st (st.heap a).name).2.2.1
    rw [hg] at hfr
    exact hfr

theorem claim_c5_witness :
    Registry.get env0 st0 2 false
      = (st0, .error (.unknownPackage "Package mpi not found.")) ∧
    (Registry.get envC5 st0 0 false
        = (c5st2, .error (.failedConstructor "zlib" "boom")) ∧
      c5st2.instances = st0.instances) := by
  constructor
  · exact (claim_c5 env0 st0 st0 2 0 false "x").1 (by decide)
  · exact (claim_c5 envC5 st0 c5st2 0 0 false "boom").2 (by decide) (by decide) rfl rfl

/-- C9: `purge()` empties the entire instance cache and leaves everything
else in the registry unchanged; a class loaded before the purge is still
returned by `getClassForPackageName` after it, from the untouched class
cache, with no reload and no state change (so under any later environment). -/
theorem claim_c9 (env env2 : Env) (st st1 : Registry) (n : String) (c : Nat)
    (h : Registry.get_class_for_package_name env st n = (st1, .ok c)) :
    (Registry.purge st1).instances = [] ∧
    (Registry.purge st1).classCache = st1.classCache ∧
    (Registry.purge st1).heap = st1.heap ∧
    (Registry.purge st1).nextRef = st1.nextRef ∧
    (Registry.purge st1).nextInst = st1.nextInst ∧
    (Registry.purge st1).loadCount = st1.loadCount ∧
    (Registry.purge st1).providerIndex = st1.providerIndex ∧
    (Registry.purge st1).namesCache = st1.namesCache ∧
    Registry.get_class_for_package_name env2 (Registry.purge st1) n
      = (Registry.purge st1, .ok c) := by
  have hlk : lookupClass (Registry.purge st1).classCache n = some c :=
    get_class_ok_lookup env st st1 n c h
  exact ⟨rfl, rfl, rfl, rfl, rfl, rfl, rfl, rfl,
    by simp [Registry.get_class_for_package_name, hlk]⟩

theorem claim_c9_witness :
    (Registry.purge c9st1).instances = [] ∧
    (Registry.purge c9st1).classCache = c9st1.classCache ∧
    Registry.get_class_for_package_name env0 (Registry.purge c9st1) "zlib"
      = (Registry.purge c9st1, .ok 0) := by
  have h := claim_c9 env0 env0 st0 c9st1 "zlib" 0 rfl
  exact ⟨h.1, h.2.1, h.2.2.2.2.2.2.2.2⟩

/-- C6: `providersFor` builds the provider index lazily from
`allPackageNames()`, at most once per registry lifetime (absent until the
first query; a later call reuses the stored index and leaves the state
untouched), and an empty provider set fails with the same `UnknownPackage`
error kind as a missing package, naming the virtual identity. -/
theorem claim_c6 (env : Env) (st : Registry) (v : SpecVal) (ns : List String) :
    (st.providerIndex = none →
      (Registry.providers_for env st v).1.providerIndex
          = some (Registry.all_package_names env st).2 ∧
      (Registry.providers_for env st v).1.namesCache
          = (Registry.all_package_names env st).1.namesCache ∧
      (env.indexProviders (Registry.all_package_names env st).2 v = [] →
        (Registry.providers_for env st v).2
          = .error (.unknownPackage ("No such virtual package: " ++ v.name)))) ∧
    (st.providerIndex = some ns →
      (Registry.providers_for env st v).1 = st ∧
      (env.indexProviders ns v = [] →
        (Registry.providers_for env st v).2
          = .error (.unknownPackage ("No such virtual package: " ++ v.name))) ∧
      (env.indexProviders ns v ≠ [] →
        (Registry.providers_for env st v).2 = .ok (env.indexProviders ns v))) := by
  constructor
  · intro h
    refine ⟨?_, ?_, ?_⟩
    · cases hps : env.indexProviders (Registry.all_package_names env st).2 v with
      | nil => simp [Registry.providers_for, h, hps]
      | cons x xs => simp [Registry.providers_for, h, hps]
    · cases hps : env.indexProviders (Registry.all_package_names env st).2 v with
      | nil => simp [Registry.providers_for, h, hps]
      | cons x xs => simp [Registry.providers_for, h, hps]
    · intro hemp
      simp [Registry.providers_for, h, hemp]
  · intro h
    refine ⟨?_, ?_, ?_⟩
    · cases hps : env.indexProviders ns v with
      | nil => simp [Registry.providers_for, h, hps]
      | cons x xs => simp [Registry.providers_for, h, hps]
    · intro hemp
      simp [Registry.providers_for, h, hemp]
    · intro hne
      cases hps : env.indexProviders ns v with
      | nil => exact absurd hps hne
      | cons x xs => simp [Registry.providers_for, h, hps]

theorem claim_c6_witness :
    (Registry.providers_for env0 st0 specV).1.providerIndex = some ["boost", "zlib"] ∧
    (Registry.providers_for env0 st0 specV).2
      = .error (.unknownPackage "No such virtual package: mpi") ∧
    (Registry.providers_for envC6 st6 specV).1 = st6 ∧
    (Registry.providers_for envC6 st6 specV).2 = .ok [specA] := by
  have h1 := (claim_c6 env0 st0 specV []).1 rfl
  have h2 := (claim_c6 envC6 st6 specV ["zlib"]).2 rfl
  refine ⟨?_, ?_, h2.1, ?_⟩
  · have := h1.1
    rw [show (Registry.all_package_names env0 st0).2 = ["boost", "zlib"] from by decide] at this
    exact this
  · exact h1.2.2 rfl
  · exact h2.2.2 (by decide)

/-- C1: for non-virtual identities `a`, `b` (heap references into a
well-formed registry, distinct from the internal key references of the cache),
two successive successful `get` calls return the identical cached instance
when the identity values are equal, and distinct instances when the values
differ — even when both share the same package name (the package name does
not appear in these hypotheses at all); moreover the cache entry for the
value of `a` is keyed under a copy, so after any later mutation of the
object `a` the cache still answers for the original value with the same
instance. -/
theorem claim_c1 (env : Env) (st st1 st2 : Registry) (a b ia ib : Nat)
    (hwf : Registry.WF st)
    (ha : a < st.nextRef) (hb : b < st.nextRef)
    (hka : ∀ p ∈ st.instances, p.1 ≠ a)
    (h1 : Registry.get env st a false = (st1, .ok ia))
    (h2 : Registry.get env st1 b false = (st2, .ok ib)) :
    (st.heap a = st.heap b → ia = ib) ∧
    (st.heap a ≠ st.heap b → ia ≠ ib) ∧
    (∀ w, lookupInst (Registry.mutate st2 a w).heap (st.heap a)
        (Registry.mutate st2 a w).instances = some ia) := by
  have hwf1 := wf_get env st st1 a ia hwf h1
  obtain ⟨hlk1, hheap1, hnref1, hentries1, hpres1⟩ := get_ok_post env st st1 a ia hwf.1 h1
  have hb1 : b < st1.nextRef := lt_of_lt_of_le hb hnref1
  have hheapb : st1.heap b = st.heap b := hheap1 b hb
  have hwf2 := wf_get env st1 st2 b ib hwf1 h2
  obtain ⟨hlk2, hheap2, hnref2, hentries2, hpres2⟩ := get_ok_post env st1 st2 b ib hwf1.1 h2
  obtain ⟨kra, hmem_a, hkra⟩ := lookupInst_some_mem st1.heap (st.heap a) st1.instances ia hlk1
  have hkra_lt : kra < st1.nextRef := hwf1.1 (kra, ia) hmem_a
  have hmem_a2 : (kra, ia) ∈ st2.instances := hpres2 (kra, ia) hmem_a
  have hkra2 : st2.heap kra = st.heap a := by
    rw [hheap2 kra hkra_lt, hkra]
  refine ⟨?_, ?_, ?_⟩
  · intro heq
    have hvb : (st1.heap b).virtual = false := by
      rw [hheapb, ← heq]
      exact (get_ok_cases env st st1 a ia hwf.1 h1).1
    have hl : lookupInst st1.heap (st1.heap b) st1.instances = some ia := by
      rw [hheapb, ← heq]
      exact hlk1
    have hcomp := get_hit env st1 b ia hvb hl
    rw [hcomp] at h2
    injection h2 with _ he
    exact Except.ok.inj he
  · intro hne hcon
    obtain ⟨krb, hmem_b, hkrb⟩ := lookupInst_some_mem st2.heap (st1.heap b) st2.instances ib hlk2
    have hkrb2 : st2.heap krb = st.heap b := by rw [hkrb, hheapb]
    have hne_pairs : (kra, ia) ≠ (krb, ib) := by
      intro hpq
      apply hne
      rw [← hkra2, ← hkrb2]
      exact congrArg (fun q : Nat × Nat => st2.heap q.1) hpq
    have hsym : Symmetric (fun p q : Nat × Nat => st2.heap p.1 ≠ st2.heap q.1 ∧ p.2 ≠ q.2) :=
      fun p q hpq => ⟨Ne.symm hpq.1, Ne.symm hpq.2⟩
    exact (List.Pairwise.forall hsym hwf2.2.2 hmem_a2 hmem_b hne_pairs).2 hcon
  · intro w
    have hrefs_ne : ∀ p ∈ st2.instances, p.1 ≠ a := by
      intro p hp
      rcases hentries2 p hp with hp1 | hge
      · rcases hentries1 p hp1 with hp0 | hge0
        · exact hka p hp0
        · intro hpa
          rw [hpa] at hge0
          omega
      · intro hpa
        rw [hpa] at hge
        omega
    have hlk : lookupInst st2.heap (st.heap a) st2.instances = some ia :=
      lookupInst_of_mem_pairwise st2.heap (st.heap a) st2.instances kra ia
        hwf2.2.2 hmem_a2 hkra2
    have hcongr : lookupInst (Registry.mutate st2 a w).heap (st.heap a) st2.instances
        = lookupInst st2.heap (st.heap a) st2.instances := by
      apply lookupInst_congr
      intro p hp
      simp [Registry.mutate, hrefs_ne p hp]
    exact hcongr.trans hlk

theorem claim_c1_witness :
    ((0 : Nat) ≠ 1) ∧
    (∀ w, lookupInst (Registry.mutate c1st2 0 w).heap (st0.heap 0)
        (Registry.mutate c1st2 0 w).instances = some 0) := by
  have h := claim_c1 env0 st0 c1st1 c1st2 0 1 0 1
    ⟨by intro p hp; simp [st0] at hp, by intro p hp; simp [st0] at hp,
     by simp [st0]⟩
    (by decide) (by decide) (by intro p hp; simp [st0] at hp) rfl rfl
  exact ⟨h.2.1 (by decide), h.2.2⟩
